import Mathlib

/-!
Verification of the in-memory user store (`UsersService` in
`src/users/users.service.ts`) of the nest-lesson repository.

The store keeps an ordered list of user records.  All numeric values in
the source are JavaScript numbers; every value actually produced by this
program is either a mathematical integer or the value `-Infinity`
(produced by `Math.max()` applied to an empty argument list, and then
propagated by `-Infinity + 1 = -Infinity`).  We therefore embed the
numeric domain of ids as an integer extended with a bottom element
`negInf`.
-/

namespace NestLesson

/-- JavaScript number values occurring as user ids in this program:
either an exact integer or `-Infinity`. -/
inductive JsNum where
  | negInf : JsNum
  | int : Int → JsNum
deriving DecidableEq, Repr

namespace JsNum

/-- Binary `Math.max` on the values occurring in this program. -/
def max : JsNum → JsNum → JsNum
  | negInf, b => b
  | int a, negInf => int a
  | int a, int b => int (Max.max a b)

/-- Adding `1` to a JavaScript number: `-Infinity + 1 = -Infinity`. -/
def addOne : JsNum → JsNum
  | negInf => negInf
  | int a => int (a + 1)

/-- The numeric order, with `-Infinity` below every integer. -/
def ble : JsNum → JsNum → Bool
  | negInf, _ => true
  | int _, negInf => false
  | int a, int b => a ≤ b

end JsNum

/-- The role union type of TEACHER, STUDENT and ADMIN. -/
inductive Role where
  | TEACHER : Role
  | STUDENT : Role
  | ADMIN : Role
deriving DecidableEq, Repr

/-- The `User` interface of `users.service.ts`. -/
structure User where
  id : JsNum
  name : String
  age : Int
  role : Role
deriving DecidableEq, Repr

/-- `CreateUserDto` (`dto/create-user.dto.ts`): the fields of a create
request.  The validation decorators constrain the values; the shape is
all three fields, required. -/
structure CreateUserDto where
  name : String
  age : Int
  role : Role
deriving DecidableEq, Repr

/-- The validation contract enforced by the `class-validator` decorators
on `CreateUserDto`: `name` a string with `MinLength(1)`, `age` a number
with `Min(13)`, `role` in the enum (guaranteed by the `Role` type). -/
def CreateUserDto.valid (d : CreateUserDto) : Prop :=
  d.name ≠ "" ∧ 13 ≤ d.age

/-- `UpdateUserDto = PartialType(CreateUserDto)`: every field of
`CreateUserDto`, each independently optional. -/
structure UpdateUserDto where
  name : Option String
  age : Option Int
  role : Option Role
deriving DecidableEq, Repr

/-- The validation contract on an update patch: each supplied field
satisfies the corresponding `CreateUserDto` constraint. -/
def UpdateUserDto.valid (d : UpdateUserDto) : Prop :=
  (∀ n ∈ d.name, n ≠ "") ∧ (∀ a ∈ d.age, 13 ≤ a)

/-- The seed data of `UsersService.users`. -/
def seedUsers : List User :=
  [ { id := JsNum.int 1, name := "Tyler", age := 26, role := Role.TEACHER },
    { id := JsNum.int 2, name := "John", age := 33, role := Role.STUDENT },
    { id := JsNum.int 3, name := "Stan", age := 50, role := Role.ADMIN } ]

/-- `getUsers()`: returns the whole array. -/
def getUsers (users : List User) : List User :=
  users

/-- `getUser(id)`: `this.users.find((user) => user.id === id)`.  The id
argument arrives through the HTTP layer as an integer. -/
def getUser (id : Int) (users : List User) : Option User :=
  users.find? (fun u => u.id = JsNum.int id)

/-- `Math.max(...this.users.map((user) => user.id))`: spreading an array
into `Math.max` folds binary max starting from `-Infinity`. -/
def maxId (users : List User) : JsNum :=
  (users.map User.id).foldl JsNum.max JsNum.negInf

/-- `createUser(createUserDto)`: computes `maxId + 1`, pushes the new
record onto the end of the array, and returns it together with the new
array state. -/
def createUser (dto : CreateUserDto) (users : List User) :
    User × List User :=
  let newUser : User :=
    { id := (maxId users).addOne, name := dto.name,
      age := dto.age, role := dto.role }
  (newUser, users ++ [newUser])

/-- JavaScript truthiness of `updateUserDto.name`: `undefined` and the
empty string are falsy. -/
def truthyName : Option String → Bool
  | none => false
  | some s => s ≠ ""

/-- JavaScript truthiness of `updateUserDto.age`: `undefined` and `0`
are falsy. -/
def truthyAge : Option Int → Bool
  | none => false
  | some a => a ≠ 0

/-- JavaScript truthiness of `updateUserDto.role`: `undefined` is falsy;
every enum member is a non-empty string, hence truthy. -/
def truthyRole : Option Role → Bool
  | none => false
  | some _ => true

/-- The three truthiness-guarded field assignments of `updateUser`,
applied to the found record. -/
def applyPatch (dto : UpdateUserDto) (u : User) : User :=
  let u1 := if truthyName dto.name then { u with name := dto.name.getD u.name } else u
  let u2 := if truthyAge dto.age then { u1 with age := dto.age.getD u1.age } else u1
  if truthyRole dto.role then { u2 with role := dto.role.getD u2.role } else u2

/-- In-place mutation of the object returned by `find`: the first
element of the array satisfying the predicate is replaced. -/
def replaceFirst (p : User → Bool) (v : User) : List User → List User
  | [] => []
  | u :: rest => if p u then v :: rest else u :: replaceFirst p v rest

/-- `updateUser(id, updateUserDto)`: looks the record up with `getUser`;
if absent, throws a `NotFoundException` carrying the message
"user with that id not found" -- quoted here as prose, not code --
(the array is untouched); if present, mutates the found record in place
under the truthiness guards and returns it.  The result pairs the
outcome (`Except` models the thrown exception) with the array state
after the call. -/
def updateUser (id : Int) (dto : UpdateUserDto) (users : List User) :
    Except String User × List User :=
  match getUser id users with
  | none => (Except.error "user with that id not found", users)
  | some u =>
      let u2 := applyPatch dto u
      (Except.ok u2, replaceFirst (fun v => v.id = JsNum.int id) u2 users)

/-- `deleteUser(id)`: `this.users = this.users.filter((user) => user.id !== id)`. -/
def deleteUser (id : Int) (users : List User) : List User :=
  users.filter (fun u => u.id ≠ JsNum.int id)

/-- The create request of the end-to-end scenario in the spec. -/
def aliceDto : CreateUserDto :=
  { name := "Alice", age := 22, role := Role.STUDENT }

/-- A second well-formed create request, used to exercise repeated
creates. -/
def bobDto : CreateUserDto :=
  { name := "Bob", age := 30, role := Role.STUDENT }

/-- The store after deleting all three seed records. -/
def emptiedStore : List User :=
  deleteUser 3 (deleteUser 2 (deleteUser 1 seedUsers))

/-- The store after two create calls on the emptied store: both new
records carry the id `-Infinity`. -/
def dupIdStore : List User :=
  (createUser bobDto (createUser aliceDto emptiedStore).2).2

/-- One observable mutating call on the store. -/
inductive Step : List User → List User → Prop where
  | create {s : List User} (dto : CreateUserDto) :
      dto.valid → Step s (createUser dto s).2
  | update {s : List User} (id : Int) (dto : UpdateUserDto) :
      dto.valid → Step s (updateUser id dto s).2
  | delete {s : List User} (id : Int) : Step s (deleteUser id s)

/-- Store states reachable from the seeded initial state by any
sequence of (validated) create, update and delete calls. -/
inductive Reachable : List User → Prop where
  | seed : Reachable seedUsers
  | step {s t : List User} : Reachable s → Step s t → Reachable t

/-! ### Order facts about the extended numeric domain -/

theorem JsNum.ble_refl (a : JsNum) : JsNum.ble a a = true := by
  cases a <;> simp [JsNum.ble]

theorem JsNum.ble_trans {a b c : JsNum} (h1 : JsNum.ble a b = true)
    (h2 : JsNum.ble b c = true) : JsNum.ble a c = true := by
  cases a <;> cases b <;> cases c <;> simp_all [JsNum.ble] <;> omega

theorem JsNum.ble_negInf {a : JsNum} (h : JsNum.ble a JsNum.negInf = true) :
    a = JsNum.negInf := by
  cases a <;> simp_all [JsNum.ble]

theorem JsNum.ble_max_left (a b : JsNum) :
    JsNum.ble a (JsNum.max a b) = true := by
  cases a <;> cases b <;> simp [JsNum.ble, JsNum.max]

theorem JsNum.ble_max_right (a b : JsNum) :
    JsNum.ble b (JsNum.max a b) = true := by
  cases a <;> cases b <;> simp [JsNum.ble, JsNum.max]

theorem JsNum.max_choice (a b : JsNum) :
    JsNum.max a b = a ∨ JsNum.max a b = b := by
  cases a with
  | negInf => exact Or.inr rfl
  | int a =>
      cases b with
      | negInf => exact Or.inl rfl
      | int b =>
          rcases le_total a b with h | h
          · exact Or.inr (by simp [JsNum.max, Int.max_eq_right h])
          · exact Or.inl (by simp [JsNum.max, Int.max_eq_left h])

theorem JsNum.ble_addOne {a b : JsNum} (h : JsNum.ble a b = true) :
    JsNum.ble a (JsNum.addOne b) = true := by
  cases a <;> cases b <;> simp_all [JsNum.ble, JsNum.addOne] <;> omega

theorem foldl_max_init (l : List JsNum) (a : JsNum) :
    JsNum.ble a (l.foldl JsNum.max a) = true := by
  induction l generalizing a with
  | nil => exact JsNum.ble_refl a
  | cons y ys ih =>
      exact JsNum.ble_trans (JsNum.ble_max_left a y) (ih (JsNum.max a y))

theorem foldl_max_ub (l : List JsNum) (a x : JsNum) (hx : x ∈ l) :
    JsNum.ble x (l.foldl JsNum.max a) = true := by
  induction l generalizing a with
  | nil => cases hx
  | cons y ys ih =>
      rcases List.mem_cons.mp hx with rfl | hmem
      · exact JsNum.ble_trans (JsNum.ble_max_right a x)
          (foldl_max_init ys (JsNum.max a x))
      · exact ih (JsNum.max a y) hmem

theorem foldl_max_mem (l : List JsNum) (a : JsNum) :
    l.foldl JsNum.max a = a ∨ l.foldl JsNum.max a ∈ l := by
  induction l generalizing a with
  | nil => exact Or.inl rfl
  | cons y ys ih =>
      rcases ih (JsNum.max a y) with h | h
      · rcases JsNum.max_choice a y with h2 | h2
        · exact Or.inl (by rw [List.foldl_cons, h, h2])
        · exact Or.inr (by rw [List.foldl_cons, h, h2]; exact List.mem_cons_self y ys)
      · exact Or.inr (List.mem_cons_of_mem y h)

/-! ### The maximal existing id -/

theorem maxId_ub (s : List User) (u : User) (hu : u ∈ s) :
    JsNum.ble u.id (maxId s) = true :=
  foldl_max_ub (s.map User.id) JsNum.negInf u.id (List.mem_map_of_mem User.id hu)

theorem maxId_attained (s : List User) (h : s ≠ []) :
    ∃ u ∈ s, u.id = maxId s := by
  rcases foldl_max_mem (s.map User.id) JsNum.negInf with h1 | h1
  · obtain ⟨u, hu⟩ := List.exists_mem_of_ne_nil s h
    have hub := maxId_ub s u hu
    have hmax : maxId s = JsNum.negInf := h1
    rw [hmax] at hub ⊢
    exact ⟨u, hu, JsNum.ble_negInf hub⟩
  · obtain ⟨u, hu, hid⟩ := List.mem_map.mp h1
    exact ⟨u, hu, hid⟩

theorem created_id_ge (s : List User) (dto : CreateUserDto) (u : User)
    (hu : u ∈ s) : JsNum.ble u.id (createUser dto s).1.id = true :=
  JsNum.ble_addOne (maxId_ub s u hu)

/-! ### Lookup -/

theorem getUser_some {id : Int} {s : List User} {u : User}
    (h : getUser id s = some u) : u ∈ s ∧ u.id = JsNum.int id := by
  refine ⟨List.mem_of_find?_eq_some h, ?_⟩
  have h2 := List.find?_some h
  simpa using h2

theorem getUser_none {id : Int} {s : List User}
    (h : ∀ u ∈ s, u.id ≠ JsNum.int id) : getUser id s = none := by
  unfold getUser
  refine List.find?_eq_none.mpr ?_
  intro u hu
  simpa using h u hu

theorem getUser_isSome {id : Int} {s : List User}
    (h : ∃ u ∈ s, u.id = JsNum.int id) : ∃ u, getUser id s = some u := by
  obtain ⟨u, hu, hid⟩ := h
  have : (getUser id s).isSome := by
    unfold getUser
    refine List.find?_isSome.mpr ⟨u, hu, ?_⟩
    simpa using hid
  exact Option.isSome_iff_exists.mp this

/-! ### The truthiness-guarded patch -/

theorem applyPatch_id (dto : UpdateUserDto) (u : User) :
    (applyPatch dto u).id = u.id := by
  unfold applyPatch
  split <;> split <;> split <;> rfl

theorem applyPatch_valid (dto : UpdateUserDto) (u : User) (hv : dto.valid) :
    applyPatch dto u =
      { id := u.id, name := dto.name.getD u.name, age := dto.age.getD u.age,
        role := dto.role.getD u.role } := by
  obtain ⟨nameOpt, ageOpt, roleOpt⟩ := dto
  obtain ⟨hn, ha⟩ := hv
  simp only at hn ha
  unfold applyPatch
  cases nameOpt with
  | none =>
      cases ageOpt with
      | none => cases roleOpt <;> simp [truthyName, truthyAge, truthyRole]
      | some a =>
          have ha0 : a ≠ 0 := by have := ha a (by simp); omega
          cases roleOpt <;> simp [truthyName, truthyAge, truthyRole, ha0]
  | some n =>
      have hn0 : n ≠ "" := hn n (by simp)
      cases ageOpt with
      | none => cases roleOpt <;> simp [truthyName, truthyAge, truthyRole, hn0]
      | some a =>
          have ha0 : a ≠ 0 := by have := ha a (by simp); omega
          cases roleOpt <;> simp [truthyName, truthyAge, truthyRole, hn0, ha0]

/-! ### In-place replacement of the found record -/

theorem replaceFirst_length (p : User → Bool) (v : User) (l : List User) :
    (replaceFirst p v l).length = l.length := by
  induction l with
  | nil => rfl
  | cons u rest ih =>
      unfold replaceFirst
      split <;> simp [ih]

theorem replaceFirst_map_id (p : User → Bool) (v : User) (l : List User)
    (hp : ∀ x, p x = true → x.id = v.id) :
    (replaceFirst p v l).map User.id = l.map User.id := by
  induction l with
  | nil => rfl
  | cons u rest ih =>
      unfold replaceFirst
      by_cases h : p u
      · simp [h, hp u h]
      · simp [h, ih]

theorem replaceFirst_getElem?_of_not (p : User → Bool) (v : User)
    (l : List User) (i : Nat) (hnp : ∀ x ∈ l[i]?, p x = false) :
    (replaceFirst p v l)[i]? = l[i]? := by
  induction l generalizing i with
  | nil => rfl
  | cons u rest ih =>
      by_cases h : p u
      · cases i with
        | zero =>
            have : p u = false := hnp u (by simp)
            rw [h] at this
            cases this
        | succ j => simp [replaceFirst, h]
      · cases i with
        | zero => simp [replaceFirst, h]
        | succ j =>
            have hrec := ih j (by simpa using hnp)
            simpa [replaceFirst, h] using hrec

/-! ### Deletion -/

theorem mem_deleteUser {id : Int} {s : List User} {u : User} :
    u ∈ deleteUser id s ↔ u ∈ s ∧ u.id ≠ JsNum.int id := by
  simp [deleteUser]

theorem deleteUser_eq_of_absent {id : Int} {s : List User}
    (h : ∀ u ∈ s, u.id ≠ JsNum.int id) : deleteUser id s = s := by
  unfold deleteUser
  refine List.filter_eq_self.mpr ?_
  intro u hu
  simpa using h u hu

theorem deleteUser_length_of_mem {id : Int} {s : List User}
    (hnd : (s.map User.id).Nodup) (hmem : ∃ u ∈ s, u.id = JsNum.int id) :
    (deleteUser id s).length + 1 = s.length := by
  induction s with
  | nil => simp at hmem
  | cons u rest ih =>
      rw [List.map_cons, List.nodup_cons] at hnd
      obtain ⟨hnotin, hndrest⟩ := hnd
      by_cases h : u.id = JsNum.int id
      · have hrest : ∀ v ∈ rest, v.id ≠ JsNum.int id := by
          intro v hv hc
          exact hnotin (by rw [h, ← hc]; exact List.mem_map_of_mem User.id hv)
        have heq : deleteUser id (u :: rest) = deleteUser id rest := by
          simp [deleteUser, h]
        rw [heq, deleteUser_eq_of_absent hrest]
        simp
      · obtain ⟨v, hv, hid⟩ := hmem
        have hvrest : v ∈ rest := by
          rcases List.mem_cons.mp hv with rfl | hm
          · exact absurd hid h
          · exact hm
        have heq : deleteUser id (u :: rest) = u :: deleteUser id rest := by
          simp [deleteUser, h]
        rw [heq]
        have hlen := ih hndrest ⟨v, hvrest, hid⟩
        simp only [List.length_cons]
        omega

/-! ### The ordering invariant on reachable states -/

theorem updateUser_map_id (id : Int) (dto : UpdateUserDto) (s : List User) :
    (updateUser id dto s).2.map User.id = s.map User.id := by
  unfold updateUser
  cases hg : getUser id s with
  | none => rfl
  | some u =>
      show (replaceFirst (fun v => v.id = JsNum.int id)
        (applyPatch dto u) s).map User.id = s.map User.id
      refine replaceFirst_map_id _ _ _ ?_
      intro x hx
      have hx2 : x.id = JsNum.int id := by simpa using hx
      rw [applyPatch_id, (getUser_some hg).2, hx2]

theorem step_preserves_sorted {s t : List User} (hst : Step s t)
    (hs : (s.map User.id).Pairwise (fun a b => JsNum.ble a b = true)) :
    (t.map User.id).Pairwise (fun a b => JsNum.ble a b = true) := by
  cases hst with
  | create dto hv =>
      show ((s ++ [(createUser dto s).1]).map User.id).Pairwise _
      rw [List.map_append]
      refine List.pairwise_append.mpr ⟨hs, by simp, ?_⟩
      intro a ha b hb
      obtain ⟨u, hu, rfl⟩ := List.mem_map.mp ha
      simp only [List.map_cons, List.map_nil, List.mem_singleton] at hb
      subst hb
      exact created_id_ge s dto u hu
  | update id dto hv =>
      rw [updateUser_map_id]
      exact hs
  | delete id =>
      exact List.Pairwise.sublist (List.Sublist.map User.id (List.filter_sublist s)) hs

theorem ids_sorted_of_reachable {s : List User} (h : Reachable s) :
    (s.map User.id).Pairwise (fun a b => JsNum.ble a b = true) := by
  induction h with
  | seed => decide
  | step hr hst ih => exact step_preserves_sorted hst ih

/-- The degenerate state with two `-Infinity` ids is reachable from the
seeded store: delete the three seed records, then create twice. -/
theorem reachable_dupIdStore : Reachable dupIdStore :=
  Reachable.step
    (Reachable.step
      (Reachable.step
        (Reachable.step
          (Reachable.step Reachable.seed (Step.delete 1))
          (Step.delete 2))
        (Step.delete 3))
      (Step.create aliceDto ⟨by decide, by decide⟩))
    (Step.create bobDto ⟨by decide, by decide⟩)

/-! ### Claims -/

/-- Claim C1: on every store with at least one record, `createUser`
assigns the new record the id (maximum existing id) + 1 — `maxId s` is
an upper bound of the existing ids and is attained by one of them —
appends the record to the end of the sequence, and returns it; on the
seeded store, creating Alice returns
`{id: 4, name: "Alice", age: 22, role: STUDENT}` and the subsequent
list has length 4. -/
theorem C1_create_assigns_next_id (s : List User) (dto : CreateUserDto)
    (h : s ≠ []) :
    (∀ u ∈ s, JsNum.ble u.id (maxId s) = true) ∧
    (∃ u ∈ s, u.id = maxId s) ∧
    (createUser dto s).1 =
      { id := (maxId s).addOne, name := dto.name, age := dto.age,
        role := dto.role } ∧
    (createUser dto s).2 = s ++ [(createUser dto s).1] ∧
    (createUser aliceDto seedUsers).1 =
      { id := JsNum.int 4, name := "Alice", age := 22,
        role := Role.STUDENT } ∧
    (createUser aliceDto seedUsers).2.length = 4 :=
  ⟨fun u hu => maxId_ub s u hu, maxId_attained s h, rfl, rfl,
    by decide, by decide⟩

/-- Concrete instance of C1: the maximal id of the seeded store is
attained by one of its records. -/
theorem C1_witness : ∃ u ∈ seedUsers, u.id = maxId seedUsers :=
  (C1_create_assigns_next_id seedUsers aliceDto (by decide)).2.1

/-- Claim C2: for every id not present in the store and every patch,
`updateUser` fails with the `NotFound` message
"user with that id not found" and the record sequence after the failed
call is exactly the sequence before it. -/
theorem C2_update_missing_id_fails (id : Int) (dto : UpdateUserDto)
    (s : List User) (h : ∀ u ∈ s, u.id ≠ JsNum.int id) :
    updateUser id dto s =
      (Except.error "user with that id not found", s) := by
  unfold updateUser
  rw [getUser_none h]

/-- Concrete instance of C2: updating the absent id 999 on the seeded
store fails and leaves the store untouched. -/
theorem C2_witness :
    updateUser 999 { name := none, age := some 1, role := none }
      seedUsers =
      (Except.error "user with that id not found", seedUsers) :=
  C2_update_missing_id_fails 999
    { name := none, age := some 1, role := none } seedUsers (by decide)

/-- Claim C3: for every id present in the store and every patch whose
supplied fields satisfy the validation contract, `updateUser` returns
the target record with exactly the supplied fields overwritten: each
supplied field takes the patch value, each omitted field keeps its
prior value, and the id is unchanged. -/
theorem C3_update_valid_patch (id : Int) (dto : UpdateUserDto)
    (s : List User) (u : User) (hu : getUser id s = some u)
    (hv : dto.valid) :
    (updateUser id dto s).1 = Except.ok
      { id := u.id, name := dto.name.getD u.name,
        age := dto.age.getD u.age, role := dto.role.getD u.role } := by
  unfold updateUser
  rw [hu]
  show Except.ok (applyPatch dto u) = _
  rw [applyPatch_valid dto u hv]

/-- Concrete instance of C3: `update(1, {age: 27})` on the seeded store
returns `{id: 1, name: "Tyler", age: 27, role: TEACHER}`. -/
theorem C3_witness :
    (updateUser 1 { name := none, age := some 27, role := none }
      seedUsers).1 =
      Except.ok
        { id := JsNum.int 1, name := "Tyler", age := 27,
          role := Role.TEACHER } :=
  C3_update_valid_patch 1
    { name := none, age := some 27, role := none } seedUsers
    { id := JsNum.int 1, name := "Tyler", age := 26,
      role := Role.TEACHER }
    (by decide)
    ⟨fun n hn => (by cases hn),
      fun a ha => (by rw [Option.mem_def, Option.some_inj] at ha; omega)⟩

/-- Claim C4 (refuted by the code): `Math.max` over the empty id list is
`-Infinity`, so the first create on an empty store assigns the id
`-Infinity` rather than 1, and a second create assigns `-Infinity`
again: after two creates on the empty store the ids are
`[-Infinity, -Infinity]`, not `1..2`. -/
theorem C4_create_on_empty_store :
    (createUser aliceDto []).1.id = JsNum.negInf ∧
    (createUser bobDto (createUser aliceDto []).2).1.id =
      JsNum.negInf ∧
    ((createUser bobDto (createUser aliceDto []).2).2).map User.id =
      [JsNum.negInf, JsNum.negInf] :=
  ⟨rfl, rfl, rfl⟩

/-- Claim C5: `getUser` is total: any returned record is a member of
the store and carries the requested id, a record with the requested id
is found whenever one exists, and the absence value `none` is returned
when no record matches. -/
theorem C5_get_total (id : Int) (s : List User) :
    (∀ u, getUser id s = some u → u ∈ s ∧ u.id = JsNum.int id) ∧
    ((∃ u ∈ s, u.id = JsNum.int id) → ∃ u, getUser id s = some u) ∧
    ((∀ u ∈ s, u.id ≠ JsNum.int id) → getUser id s = none) :=
  ⟨fun _ h => getUser_some h, fun h => getUser_isSome h,
    fun h => getUser_none h⟩

/-- Concrete instance of C5: looking up the absent id 999 on the seeded
store returns the absence value. -/
theorem C5_witness : getUser 999 seedUsers = none :=
  (C5_get_total 999 seedUsers).2.2 (by decide)

/-- Claim C6 (refuted by the code): the state reached from the seeded
store by deleting all three records and creating twice is reachable,
and its two records share the id `-Infinity`, so the ids of a reachable
state need not be pairwise distinct. -/
theorem C6_reachable_state_with_duplicate_ids :
    Reachable dupIdStore ∧ ¬ (dupIdStore.map User.id).Nodup :=
  ⟨reachable_dupIdStore, by decide⟩

/-- Claim C7: on every store whose ids are pairwise distinct,
`deleteUser` of a present id removes exactly one record — the length
drops by exactly one, every record with a different id is kept, and
only records of the store with a different id remain — while
`deleteUser` of an absent id returns the store unchanged (and never
fails, being a total function). -/
theorem C7_delete_semantics (id : Int) (s : List User) :
    ((s.map User.id).Nodup → (∃ u ∈ s, u.id = JsNum.int id) →
      (deleteUser id s).length + 1 = s.length) ∧
    (∀ u ∈ s, u.id ≠ JsNum.int id → u ∈ deleteUser id s) ∧
    (∀ u ∈ deleteUser id s, u ∈ s ∧ u.id ≠ JsNum.int id) ∧
    ((∀ u ∈ s, u.id ≠ JsNum.int id) → deleteUser id s = s) :=
  ⟨fun hnd hmem => deleteUser_length_of_mem hnd hmem,
    fun _ hu hne => mem_deleteUser.mpr ⟨hu, hne⟩,
    fun _ hu => mem_deleteUser.mp hu,
    fun h => deleteUser_eq_of_absent h⟩

/-- Concrete instance of C7: deleting the present id 2 from the seeded
store shrinks it by exactly one record. -/
theorem C7_witness :
    (deleteUser 2 seedUsers).length + 1 = seedUsers.length :=
  (C7_delete_semantics 2 seedUsers).1 (by decide) (by decide)

/-- Claim C8: for every store state and every id, deleting the same id
twice in a row yields the same store state as deleting it once. -/
theorem C8_delete_idempotent (id : Int) (s : List User) :
    deleteUser id (deleteUser id s) = deleteUser id s := by
  unfold deleteUser
  rw [List.filter_filter]
  simp

/-- Claim C9 (refuted by the code): the reachable state with two
`-Infinity` ids is not strictly increasing in list order, since its two
equal ids violate strictness. -/
theorem C9_counterexample_strict_increase :
    Reachable dupIdStore ∧
    ¬ (dupIdStore.map User.id).Pairwise
        (fun a b => a ≠ b ∧ JsNum.ble a b = true) :=
  ⟨reachable_dupIdStore, by decide⟩

/-- Claim C9 as amended: in every state reachable from the seeded store
the ids are non-decreasing in list order, and every newly created id is
greater than or equal to every id currently in the store.  Strictness
fails only for the `-Infinity` ids assigned by create on an emptied
store. -/
theorem C9_reachable_ids_nondecreasing (s : List User)
    (h : Reachable s) :
    (s.map User.id).Pairwise (fun a b => JsNum.ble a b = true) ∧
    ∀ (dto : CreateUserDto), ∀ u ∈ s,
      JsNum.ble u.id (createUser dto s).1.id = true :=
  ⟨ids_sorted_of_reachable h,
    fun dto u hu => created_id_ge s dto u hu⟩

/-- Concrete instance of the amended C9 at the seeded store. -/
theorem C9_witness :
    (seedUsers.map User.id).Pairwise
      (fun a b => JsNum.ble a b = true) :=
  (C9_reachable_ids_nondecreasing seedUsers Reachable.seed).1

/-- Claim C10: a successful `updateUser` preserves the length of the
record sequence, preserves the sequence of ids (hence the order), and
leaves every position holding a record with a different id completely
unchanged. -/
theorem C10_update_frame (id : Int) (dto : UpdateUserDto)
    (s : List User) (u : User) (hu : getUser id s = some u) :
    (updateUser id dto s).2.length = s.length ∧
    (updateUser id dto s).2.map User.id = s.map User.id ∧
    ∀ i : Nat, (∀ v ∈ s[i]?, v.id ≠ JsNum.int id) →
      (updateUser id dto s).2[i]? = s[i]? := by
  have h2eq : (updateUser id dto s).2 =
      replaceFirst (fun v => v.id = JsNum.int id) (applyPatch dto u) s := by
    unfold updateUser
    rw [hu]
  refine ⟨?_, updateUser_map_id id dto s, ?_⟩
  · rw [h2eq, replaceFirst_length]
  · intro i hi
    rw [h2eq]
    refine replaceFirst_getElem?_of_not _ _ s i ?_
    intro x hx
    simpa using hi x hx

/-- Concrete instance of C10: updating record 1 of the seeded store
leaves the length of the sequence unchanged. -/
theorem C10_witness :
    (updateUser 1 { name := none, age := some 27, role := none }
      seedUsers).2.length = seedUsers.length :=
  (C10_update_frame 1
    { name := none, age := some 27, role := none } seedUsers
    { id := JsNum.int 1, name := "Tyler", age := 26,
      role := Role.TEACHER } (by decide)).1

end NestLesson
